import Mathlib

/-!
Verification of the EV-BET-CALCULATOR aggregation core (src/main.py).

Shallow embedding conventions:
* Python floats are modelled as rational numbers (`ℚ`).  All odds values
  reaching the aggregation pipeline are finite floats, which embed exactly
  into `ℚ`; `round(x, n)` is modelled as exact half-even rounding on `ℚ`.
* Python strings are Lean `String`s; character-level computation is done on
  `List Char` (`String.data`).  The repository's data is ASCII, and the
  character-class predicates (`\w`, `\s`, `str.isdigit`-style tests,
  upper/lower casing) are modelled on ASCII.
* Python dicts (insertion ordered) are modelled as association lists
  (`List (κ × β)`) with first-match lookup; `d[k] = v` on an existing key is
  `dadjust`, and "insert key with default if missing" is `densure`.
* `float(s)` (after the code's `replace(',', '.')`) is modelled by
  `parseFloat`, a sign + decimal-digits + optional fraction parser; the
  exotic float literals (exponents, `inf`, `nan`, underscores) play no role
  in the claims and are rejected by the model.
-/

/- ### Characters and Python-style string helpers -/

/-- Python `\s` / `str.strip()` whitespace on ASCII. -/
def pySpace (c : Char) : Bool :=
  c == ' ' || c == '\t' || c == '\n' || c == '\r' || c == '\x0b' || c == '\x0c'

/-- Python regex `\w` on ASCII: letters, digits, underscore. -/
def isWordChar (c : Char) : Bool := c.isAlpha || c.isDigit || c == '_'

/-- Drop the characters of `strip` from both ends (Python `str.strip(chars)`). -/
def stripBoth (p : Char → Bool) (l : List Char) : List Char :=
  ((l.dropWhile p).reverse.dropWhile p).reverse

/-- Python `str.strip()` (no argument) on a string. -/
def pyStrip (s : String) : String := String.mk (stripBoth pySpace s.data)

/-- Python `s.replace(',', '.')`. -/
def commaToDot (s : String) : String :=
  String.mk (s.data.map fun c => if c = ',' then '.' else c)

/-- Substring containment, Python's `needle in hay`. -/
def containsSub (needle : List Char) : List Char → Bool
  | [] => needle.isEmpty
  | c :: t => needle.isPrefixOf (c :: t) || containsSub needle t

/-- Python `s.upper()` on ASCII, as a character list. -/
def upperChars (s : String) : List Char := s.data.map Char.toUpper

/-- Python `s.lower()` on ASCII, as a character list. -/
def lowerChars (s : String) : List Char := s.data.map Char.toLower

/- ### Model of Python's `float()` on plain decimal literals -/

/-- Value of a list of decimal digit characters (most significant first). -/
def digitsToNat (l : List Char) : Nat := l.foldl (fun a c => a * 10 + (c.toNat - 48)) 0

/-- Modelled from Python's builtin `float` on the decimal literals this
program feeds it: optional sign, then digits with an optional fractional
part (at least one digit overall).  Returns the exact rational value. -/
def parseFloat (s : String) : Option ℚ :=
  let (neg, l1) :=
    match s.data with
    | '-' :: t => (true, t)
    | '+' :: t => (false, t)
    | l => (false, l)
  let d1 := l1.takeWhile Char.isDigit
  let r1 := l1.dropWhile Char.isDigit
  let sign : ℚ → ℚ := fun v => if neg then -v else v
  match r1 with
  | [] => if d1.isEmpty then none else some (sign (digitsToNat d1))
  | '.' :: r2 =>
    let d2 := r2.takeWhile Char.isDigit
    let r3 := r2.dropWhile Char.isDigit
    if r3.isEmpty ∧ ¬(d1.isEmpty ∧ d2.isEmpty) then
      some (sign ((digitsToNat d1 : ℚ) + (digitsToNat d2 : ℚ) / (10 : ℚ) ^ d2.length))
    else none
  | _ => none

/- ### Ingestion: `fetch_matchbet_data`'s per-row logic (main.py lines 149-182) -/

/-- One validated wager observation, `MatchBetTuple` in main.py:
`(sport, tournament, matchup, bet, live_status, odds, result)`. -/
structure MatchBetTuple where
  sport : String
  tournament : String
  matchup : String
  bet : String
  live_status : String
  odds : ℚ
  result : String
deriving DecidableEq

/-- `if len(r) < 8: r = r + [""] * (8 - len(r))` (main.py lines 159-160). -/
def padRow8 (r : List String) : List String :=
  if r.length < 8 then r ++ List.replicate (8 - r.length) "" else r

/-- The body of the `for r in raw` loop of `fetch_matchbet_data`:
pad the row to 8 cells, strip the fields, skip the row when the sport or
the result is empty or the odds cell does not parse (after `,` → `.`). -/
def processRow (r0 : List String) : Option MatchBetTuple :=
  let r := padRow8 r0
  let sport := pyStrip (r.getD 0 "")
  let tournament := pyStrip (r.getD 1 "")
  let matchup := pyStrip (r.getD 2 "")
  let bet := pyStrip (r.getD 3 "")
  let live_status := pyStrip (r.getD 4 "")
  let odds_s := pyStrip (r.getD 5 "")
  let result := pyStrip (r.getD 7 "")
  if sport = "" then none
  else if result = "" then none
  else
    match parseFloat (commaToDot odds_s) with
    | none => none
    | some odds => some ⟨sport, tournament, matchup, bet, live_status, odds, result⟩

/-- `fetch_matchbet_data` restricted to its per-row logic: the network fetch
is out of scope, the validated record list built from the raw rows is kept. -/
def fetch_matchbet_data (raw : List (List String)) : List MatchBetTuple :=
  raw.filterMap processRow

example : fetch_matchbet_data [["CS2", "T", "M", "B", "Not Live", "1,85", "", "Win"]] =
    [⟨"CS2", "T", "M", "B", "Not Live", 37/20, "Win"⟩] := by
  have h1 : digitsToNat ['1'] = 1 := by decide
  have h2 : digitsToNat ['8', '5'] = 85 := by decide
  norm_num +decide [fetch_matchbet_data, List.filterMap_cons, processRow, padRow8, parseFloat,
    commaToDot, pyStrip, stripBoth, h1, h2]

example : fetch_matchbet_data [["CS2", "T", "M", "B", "Not Live", "1,85", "Win"]] = [] := by
  norm_num +decide [fetch_matchbet_data, List.filterMap_cons, processRow, padRow8, parseFloat,
    commaToDot, pyStrip, stripBoth]

/- ### Association-list model of Python dicts -/

/-- First-match lookup in an association list (Python `d[k]` / `d.get(k)`). -/
def dlookup {κ β : Type} [DecidableEq κ] : List (κ × β) → κ → Option β
  | [], _ => none
  | p :: t, k => if k = p.1 then some p.2 else dlookup t k

/-- The keys, in insertion order (Python `d.keys()`). -/
def dkeys {κ β : Type} (m : List (κ × β)) : List κ := m.map Prod.fst

/-- Python `if k not in d: d[k] = default`. -/
def densure {κ β : Type} [DecidableEq κ] (m : List (κ × β)) (k : κ) (d : β) : List (κ × β) :=
  if (dlookup m k).isSome then m else m ++ [(k, d)]

/-- Python `d[k] = f(d[k])` on a present key: rewrite every binding of `k`. -/
def dadjust {κ β : Type} [DecidableEq κ] (m : List (κ × β)) (k : κ) (f : β → β) :
    List (κ × β) :=
  m.map fun p => if p.1 = k then (p.1, f p.2) else p

/- ### Odds keys and display formatting (main.py lines 57-72) -/

/-- Round half-to-even to an integer, the rounding Python's `round` uses
(exactly, on the rational model of finite floats). -/
def halfEvenZ (q : ℚ) : ℤ :=
  let f : ℤ := ⌊q⌋
  let r : ℚ := q - (f : ℚ)
  if r < 1 / 2 then f
  else if 1 / 2 < r then f + 1
  else if f % 2 = 0 then f else f + 1

/-- Python `round(v, 4)` on the rational model. -/
def roundTo4 (q : ℚ) : ℚ := (halfEvenZ (q * 10000) : ℚ) / 10000

/-- `round_odds_key` (main.py lines 57-61).  Its `except` branch corresponds
to inputs that are not finite floats, which the rational model excludes, so
the model always returns `some`. -/
def round_odds_key (v : ℚ) : Option ℚ := some (roundTo4 v)

/-- Decimal digit characters of `n`, most significant first (`str(n)`). -/
def natDigitsAux : Nat → Nat → List Char
  | 0, _ => []
  | fuel + 1, n =>
    if n < 10 then [Nat.digitChar n]
    else natDigitsAux fuel (n / 10) ++ [Nat.digitChar (n % 10)]

/-- Python `str(n)` for a natural number. -/
def natRepr (n : Nat) : String := String.mk (natDigitsAux (n + 1) n)

/-- The two-digit fractional block of a `:.2f` rendering. -/
def pad2 (n : Nat) : String := String.mk [Nat.digitChar (n / 10 % 10), Nat.digitChar (n % 10)]

/-- Python `f"{x:.2f}"` on the rational model: half-even rounding to
hundredths, two fractional digits, and the minus sign following the sign of
the value itself — Python renders a negative value that rounds to zero as
`"-0.00"` (the rational model has no `-0.0`, the one float whose sign this
value-based rule cannot see). -/
def formatFixed2 (x : ℚ) : String :=
  let n := halfEvenZ (x * 100)
  (if x < 0 then "-" else "") ++ natRepr (n.natAbs / 100) ++ "." ++ pad2 (n.natAbs % 100)

/-- `fmt_wr` (main.py lines 64-65). -/
def fmt_wr (wr : Option ℚ) : String :=
  match wr with
  | none => "N/A"
  | some w => formatFixed2 (w * 100) ++ "%"

/-- The odds display `f"{odds:.2f}"` of `MainWindow.render_compare`
(main.py lines 522-525). -/
def fmt_odds (o : ℚ) : String := formatFixed2 o

/-- `fmt_ev` (main.py lines 68-72): formatted EV string and numeric EV. -/
def fmt_ev (wr odds : Option ℚ) : String × Option ℚ :=
  match wr, odds with
  | some w, some o => (formatFixed2 ((w * o - 1) * 100) ++ "%", some (w * o - 1))
  | _, _ => ("N/A", none)

/- ### Aggregation: `process_bets_to_cache` (main.py lines 185-217) -/

/-- A record counts as live when its status, uppercased, contains `"LIVE"`
and does not contain `"NOT"` (main.py line 193). -/
def isLiveStatus (s : String) : Bool :=
  containsSub "LIVE".data (upperChars s) && ! containsSub "NOT".data (upperChars s)

/-- A record counts as a win when its result, lowercased, equals `"win"`
(main.py line 194). -/
def isWinResult (s : String) : Bool := lowerChars s == "win".data

/-- The per-bucket counters `{'lw','lt','pw','pt'}` (main.py line 191). -/
structure OddsStats where
  lw : Nat
  lt : Nat
  pw : Nat
  pt : Nat
deriving DecidableEq

/-- The zero bucket `{'lw':0,'lt':0,'pw':0,'pt':0}`. -/
def zeroStats : OddsStats := ⟨0, 0, 0, 0⟩

/-- One record's increment on its bucket (main.py lines 196-201). -/
def bumpStats (liveB winB : Bool) (st : OddsStats) : OddsStats :=
  if liveB then ⟨if winB then st.lw + 1 else st.lw, st.lt + 1, st.pw, st.pt⟩
  else ⟨st.lw, st.lt, if winB then st.pw + 1 else st.pw, st.pt + 1⟩

/-- The nested tally `agg : sport → OddsKey → OddsStats`. -/
def AggMap : Type := List (String × List (ℚ × OddsStats))

/-- One iteration of the first loop of `process_bets_to_cache`
(main.py lines 187-201). -/
def aggStep (agg : AggMap) (b : MatchBetTuple) : AggMap :=
  let agg1 := densure agg b.sport []
  match round_odds_key b.odds with
  | none => agg1
  | some k =>
    dadjust agg1 b.sport fun inner =>
      dadjust (densure inner k zeroStats) k
        (bumpStats (isLiveStatus b.live_status) (isWinResult b.result))

/-- The full first loop of `process_bets_to_cache`. -/
def buildAgg (bets : List MatchBetTuple) : AggMap := bets.foldl aggStep []

/-- `(live_wr, prem_wr, live_cnt, prem_cnt)` as stored in `index[k]`. -/
def IdxTup : Type := Option ℚ × Option ℚ × Option Nat × Option Nat

/-- The derived per-bucket tuple of main.py lines 209-215: win-rates only
when the total is positive, counts reported as absent when zero. -/
def mkIdxTup (st : OddsStats) : IdxTup :=
  (if st.lt > 0 then some ((st.lw : ℚ) / (st.lt : ℚ)) else none,
   if st.pt > 0 then some ((st.pw : ℚ) / (st.pt : ℚ)) else none,
   if st.lt > 0 then some st.lt else none,
   if st.pt > 0 then some st.pt else none)

/-- A row of the ordered view: `(odds, live_wr, prem_wr, live_cnt, prem_cnt)`. -/
def RowTuple : Type := ℚ × IdxTup

/-- `SheetCacheEntry` (main.py lines 42-46). -/
structure SheetCacheEntry where
  rows : List RowTuple
  index : List (ℚ × IdxTup)

/-- The odds keys of one sport in ascending order, `sorted(odds_map.keys())`. -/
def sortedKeys (m : List (ℚ × OddsStats)) : List ℚ :=
  (dkeys m).insertionSort (· ≤ ·)

/-- The second loop body of `process_bets_to_cache` (main.py lines 205-215):
build the ordered rows and the parallel index over the sorted keys. -/
def mkEntry (m : List (ℚ × OddsStats)) : SheetCacheEntry :=
  { rows := (sortedKeys m).map fun k => (k, mkIdxTup ((dlookup m k).getD zeroStats))
    index := (sortedKeys m).map fun k => (k, mkIdxTup ((dlookup m k).getD zeroStats)) }

/-- `process_bets_to_cache` (main.py lines 185-217). -/
def process_bets_to_cache (bets : List MatchBetTuple) : List (String × SheetCacheEntry) :=
  (buildAgg bets).map fun p => (p.1, mkEntry p.2)

/- ### A small regex engine for `normalize_tournament_name` (main.py lines 88-146)

The patterns of `normalize_tournament_name` use only literals, character
classes, greedy `+`/`*`/`?` on classes, alternation, `\b`, and two negative
lookbehinds.  `matchLens` enumerates the candidate match lengths of a pattern
at one position in backtracking priority order (greedy quantifiers longest
first, alternatives left to right), which is exactly the order Python's `re`
explores, so the head of the enumeration is the match `re.sub` takes. -/

/-- Case-insensitive character comparison (`re.IGNORECASE` on ASCII). -/
def ciEq (a b : Char) : Bool := a.toLower == b.toLower

/-- Case-insensitive literal prefix test. -/
def matchesCI : List Char → List Char → Bool
  | [], _ => true
  | _ :: _, [] => false
  | p :: ps, c :: cs => ciEq p c && matchesCI ps cs

/-- Length of the longest prefix satisfying `f`. -/
def countLeading (f : Char → Bool) : List Char → Nat
  | [] => 0
  | c :: t => if f c then countLeading f t + 1 else 0

/-- `\b`: the characters on the two sides of the position (the reversed left
context and the remaining input) disagree on being word characters; the ends
of the string count as non-word. -/
def boundaryAt (left rest : List Char) : Bool :=
  (match left with | [] => false | c :: _ => isWordChar c) !=
    (match rest with | [] => false | c :: _ => isWordChar c)

/-- The regex fragment language used by the tournament normalizer. -/
inductive RE where
  | fail : RE
  | eps : RE
  | lit : List Char → RE
  | cls : (Char → Bool) → RE
  | seq : RE → RE → RE
  | alt : RE → RE → RE
  | plusCls : (Char → Bool) → RE
  | starCls : (Char → Bool) → RE
  | wb : RE
  | look : (List Char → Bool) → RE

/-- Candidate match lengths of `pat` at the position whose reversed prefix is
`left` and whose remaining input is `rest`, in backtracking priority order. -/
def matchLens : RE → List Char → List Char → List Nat
  | RE.fail, _, _ => []
  | RE.eps, _, _ => [0]
  | RE.lit p, _, rest => if matchesCI p rest then [p.length] else []
  | RE.cls f, _, rest =>
    match rest with
    | c :: _ => if f c then [1] else []
    | [] => []
  | RE.seq a b, left, rest =>
    (matchLens a left rest).flatMap fun n =>
      (matchLens b ((rest.take n).reverse ++ left) (rest.drop n)).map (n + ·)
  | RE.alt a b, left, rest => matchLens a left rest ++ matchLens b left rest
  | RE.plusCls f, _, rest =>
    let m := countLeading f rest
    (List.range m).map (m - ·)
  | RE.starCls f, _, rest =>
    let m := countLeading f rest
    (List.range (m + 1)).map (m - ·)
  | RE.wb, left, rest => if boundaryAt left rest then [0] else []
  | RE.look f, left, _ => if f left then [0] else []

/-- `re.sub(pat, repl, ·)`: scan left to right over the original input,
replacing each non-overlapping match and resuming right after it.  The fuel
is the input length; every step consumes at least one input character. -/
def reSubAux (pat : RE) (repl : List Char) : Nat → List Char → List Char → List Char
  | 0, _, _ => []
  | _ + 1, _, [] => []
  | fuel + 1, left, c :: rs =>
    match (matchLens pat left (c :: rs)).head? with
    | some (n + 1) =>
      repl ++ reSubAux pat repl fuel (((c :: rs).take (n + 1)).reverse ++ left)
        ((c :: rs).drop (n + 1))
    | _ => c :: reSubAux pat repl fuel (c :: left) rs

/-- `re.sub` on a character list. -/
def reSub (pat : RE) (repl : List Char) (l : List Char) : List Char :=
  reSubAux pat repl l.length [] l

/-- Python `str.replace` (case-sensitive, all occurrences). -/
def replaceAllAux (pat repl : List Char) : Nat → List Char → List Char
  | 0, _ => []
  | _ + 1, [] => []
  | fuel + 1, c :: t =>
    if !pat.isEmpty && pat.isPrefixOf (c :: t) then
      repl ++ replaceAllAux pat repl fuel ((c :: t).drop pat.length)
    else c :: replaceAllAux pat repl fuel t

/-- Python `str.replace` on a character list. -/
def replaceAll (pat repl l : List Char) : List Char := replaceAllAux pat repl l.length l

/-- The text before the first occurrence of `sub` (`s.split(sub)[0]`); the
whole text when `sub` does not occur. -/
def takeBeforeSub (sub : List Char) : List Char → List Char
  | [] => []
  | c :: t => if sub.isPrefixOf (c :: t) then [] else c :: takeBeforeSub sub t

/- The individual patterns of main.py lines 107-140, in source order. -/

/-- `\bW\s+\d+\b` for the sequence words Season/Series/Part/Stage/Phase/Split. -/
def patWordNum (w : String) : RE :=
  RE.seq RE.wb (RE.seq (RE.lit w.data) (RE.seq (RE.plusCls pySpace)
    (RE.seq (RE.plusCls Char.isDigit) RE.wb)))

/-- Fold a list of fragments into one sequence. -/
def reseq (l : List RE) : RE := l.foldr RE.seq RE.eps

/-- Alternatives, tried left to right. -/
def realt (l : List RE) : RE := l.foldr RE.alt RE.fail

/-- Greedy `?`. -/
def reOpt (r : RE) : RE := RE.alt r RE.eps

/-- A string literal fragment. -/
def reStr (s : String) : RE := RE.lit s.data

/-- `\bVol\.?\s*\d+\b`. -/
def patVol : RE :=
  reseq [RE.wb, reStr "Vol", reOpt (reStr "."), RE.starCls pySpace,
    RE.plusCls Char.isDigit, RE.wb]

/-- `\bGroup\s+[A-Za-z0-9]+\b`. -/
def patGroupTok : RE :=
  reseq [RE.wb, reStr "Group", RE.plusCls pySpace,
    RE.plusCls (fun c => c.isAlpha || c.isDigit), RE.wb]

/-- `#\d+`. -/
def patHashNum : RE := RE.seq (reStr "#") (RE.plusCls Char.isDigit)

/-- `\bOS\b`. -/
def patOS : RE := reseq [RE.wb, reStr "OS", RE.wb]

/-- `\b(Asia|Americas|Europe)\s+RMR(\s+[A-Z])?\b`. -/
def patRegionRMR : RE :=
  reseq [RE.wb, realt [reStr "Asia", reStr "Americas", reStr "Europe"],
    RE.plusCls pySpace, reStr "RMR",
    reOpt (RE.seq (RE.plusCls pySpace) (RE.cls Char.isAlpha)), RE.wb]

/-- `\bRMR\b`. -/
def patRMR : RE := reseq [RE.wb, reStr "RMR", RE.wb]

/-- `\bS\d+\b`. -/
def patSNum : RE := reseq [RE.wb, reStr "S", RE.plusCls Char.isDigit, RE.wb]

/-- `(?<!^)`: the position is not the start of the string. -/
def notAtStart : RE := RE.look (fun l => !l.isEmpty)

/-- The region and continent tokens of the source pattern, in source order. -/
def regionWords : List String :=
  ["Europe", "EU", "NA", "SA", "Asia", "Americas", "Oceania", "CIS", "European",
   "South American", "North American", "Pacific", "APAC"]

/-- `(?<!^)\b(Europe|EU|NA|SA|Asia|Americas|Oceania|CIS|European|South American|North American|Pacific|APAC)\b`. -/
def patRegion : RE := reseq [notAtStart, RE.wb, realt (regionWords.map reStr), RE.wb]

/-- `\bLCQ\b`. -/
def patLCQ : RE := reseq [RE.wb, reStr "LCQ", RE.wb]

/-- `\b(Play-In|Global Finals|Contenders|CQ|Finals?|Groups?|Playoffs?)\b`. -/
def patBracket : RE :=
  reseq [RE.wb,
    realt [reStr "Play-In", reStr "Global Finals", reStr "Contenders", reStr "CQ",
      RE.seq (reStr "Final") (reOpt (reStr "s")),
      RE.seq (reStr "Group") (reOpt (reStr "s")),
      RE.seq (reStr "Playoff") (reOpt (reStr "s"))],
    RE.wb]

/-- `\b\d+(?:st|nd|rd|th)?\s+Division\b`. -/
def patDivisionPre : RE :=
  reseq [RE.wb, RE.plusCls Char.isDigit,
    reOpt (realt [reStr "st", reStr "nd", reStr "rd", reStr "th"]),
    RE.plusCls pySpace, reStr "Division", RE.wb]

/-- `\bDivision\s+\d+\b`. -/
def patDivisionPost : RE :=
  reseq [RE.wb, reStr "Division", RE.plusCls pySpace, RE.plusCls Char.isDigit, RE.wb]

/-- `\bSeries\b`. -/
def patSeries : RE := reseq [RE.wb, reStr "Series", RE.wb]

/-- `(?<!\bIEM\s)` at the current position: the reversed left context starts
with a whitespace preceded by the word `IEM` at a word boundary. -/
def matchIEMBefore (l : List Char) : Bool :=
  match l with
  | s :: m :: e :: i :: rest =>
    pySpace s && ciEq m 'M' && ciEq e 'E' && ciEq i 'I' &&
      (match rest with | [] => true | c :: _ => !isWordChar c)
  | _ => false

/-- `(?<!^)(?<!\bIEM\s)\b(Atlanta|Katowice|Bangkok|Raleigh|Lisbon)\b`. -/
def patCity : RE :=
  reseq [notAtStart, RE.look (fun l => !matchIEMBefore l), RE.wb,
    realt (["Atlanta", "Katowice", "Bangkok", "Raleigh", "Lisbon"].map reStr), RE.wb]

/-- `\b(Spring|Summer|Fall|Winter)\b`. -/
def patSeasonWord : RE :=
  reseq [RE.wb, realt (["Spring", "Summer", "Fall", "Winter"].map reStr), RE.wb]

/-- `\b(I|II|III|IV|V|VI|VII|VIII|IX|X)\b`. -/
def patRoman : RE :=
  reseq [RE.wb,
    realt (["I", "II", "III", "IV", "V", "VI", "VII", "VIII", "IX", "X"].map reStr),
    RE.wb]

/-- `\b(19|20)\d{2}\b` (main.py line 107). -/
def patYear : RE :=
  reseq [RE.wb, RE.alt (reStr "19") (reStr "20"), RE.cls Char.isDigit,
    RE.cls Char.isDigit, RE.wb]

/-- `\b\d{1,3}\b` (main.py line 140), greedy. -/
def patNum13 : RE :=
  reseq [RE.wb, RE.cls Char.isDigit,
    reOpt (RE.seq (RE.cls Char.isDigit) (reOpt (RE.cls Char.isDigit))), RE.wb]

/-- The `patterns` list of main.py lines 111-134, in source order. -/
def seqPatterns : List RE :=
  [patWordNum "Season", patWordNum "Series", patVol, patWordNum "Part",
   patWordNum "Stage", patWordNum "Phase", patWordNum "Split", patGroupTok,
   patHashNum, patOS, patRegionRMR, patRMR, patSNum, patRegion, patLCQ, patBracket,
   patDivisionPre, patDivisionPost, patSeries, patCity, patSeasonWord, patRoman]

/-- `normalize_tournament_name` (main.py lines 88-146). -/
def normalize_tournament_name (name : String) : String :=
  if name = "" then ""
  else
    let l1 := replaceAll "StarLadder SS".data "StarLadder StarSeries".data name.data
    let l2 := takeBeforeSub "//".data l1
    let l3 := takeBeforeSub ": ".data l2
    let l4 := reSub patYear [] l3
    let l5 := seqPatterns.foldl (fun acc p => reSub p [] acc) l4
    let l6 := reSub patNum13 [] l5
    let l7 := reSub (RE.plusCls pySpace) [' '] l6
    String.mk (stripBoth (fun c => c == ' ' || c == '-') l7)

/- ### Odds comparison verdict (main.py lines 518-521) -/

/-- The three outcomes of `render_compare` when both win-rates are present. -/
inductive CompareVerdict where
  | betterA : CompareVerdict
  | betterB : CompareVerdict
  | equal : CompareVerdict
deriving DecidableEq

/-- The verdict of `MainWindow.render_compare` (main.py lines 518-521):
compare the scores `wr*odds` of the two sides. -/
def render_compare_verdict (wr_a wr_b odds_a odds_b : ℚ) : CompareVerdict :=
  let score_a := wr_a * odds_a
  let score_b := wr_b * odds_b
  if score_a > score_b then CompareVerdict.betterA
  else if score_b > score_a then CompareVerdict.betterB
  else CompareVerdict.equal

/- ### Statistics view aggregation (main.py lines 596-676) -/

/-- The sport-name alias of main.py lines 600-602. -/
def canonSport (s : String) : String := if s = "CStwo" then "CS2" else s

/-- `stats : sport → tournament → (wins, total)`. -/
def StatsMap : Type := List (String × List (String × Nat × Nat))

/-- One iteration of the statistics loop (main.py lines 597-616). -/
def statStep (stats : StatsMap) (b : MatchBetTuple) : StatsMap :=
  if b.sport = "" then stats
  else
    let sport := canonSport b.sport
    if b.tournament = "" then stats
    else
      let nt := normalize_tournament_name b.tournament
      if nt = "" then stats
      else
        dadjust (densure stats sport []) sport fun inner =>
          dadjust (densure inner nt (0, 0)) nt fun wt =>
            (wt.1 + (if isWinResult b.result then 1 else 0), wt.2 + 1)

/-- The statistics loop over the full record list. -/
def buildTournamentStats (data : List MatchBetTuple) : StatsMap :=
  data.foldl statStep []

/-- Per-sport `(wins, total)` totals (main.py lines 641-644). -/
def sTotals (inner : List (String × Nat × Nat)) : Nat × Nat :=
  inner.foldl (fun acc p => (acc.1 + p.2.1, acc.2 + p.2.2)) (0, 0)

/-- `sport_totals[s]['total']`. -/
def sportTotalOf (stats : StatsMap) (s : String) : Nat :=
  (sTotals ((dlookup stats s).getD [])).2

/-- `sorted(stats.keys(), key=lambda s: sport_totals[s]['total'], reverse=True)`
(main.py line 646). -/
def sortedSports (stats : StatsMap) : List String :=
  (dkeys stats).insertionSort fun a b => sportTotalOf stats b ≤ sportTotalOf stats a

/-- `sorted(tourneys.items(), key=lambda item: item[1]['total'], reverse=True)`
(main.py line 664). -/
def sortedTourneys (inner : List (String × Nat × Nat)) : List (String × Nat × Nat) :=
  inner.insertionSort fun x y => y.2.2 ≤ x.2.2

/- ### Association-list lemmas -/

theorem dlookup_append {κ β : Type} [DecidableEq κ] (m l : List (κ × β)) (k : κ) :
    dlookup (m ++ l) k = match dlookup m k with
      | some v => some v
      | none => dlookup l k := by
  induction m with
  | nil => simp [dlookup]
  | cons p t ih =>
    by_cases h : k = p.1 <;> simp [dlookup, h, ih]

theorem dlookup_densure {κ β : Type} [DecidableEq κ] (m : List (κ × β)) (k : κ) (d : β)
    (k' : κ) :
    dlookup (densure m k d) k' =
      if k' = k then some ((dlookup m k).getD d) else dlookup m k' := by
  unfold densure
  cases h : dlookup m k with
  | some v =>
    simp only [h, Option.isSome_some, if_true]
    by_cases hk : k' = k
    · subst hk; simp [h]
    · simp [hk]
  | none =>
    simp only [h, Option.isSome_none, Bool.false_eq_true, if_false]
    rw [dlookup_append]
    by_cases hk : k' = k
    · subst hk; simp [h, dlookup]
    · cases h2 : dlookup m k' <;> simp [h2, dlookup, hk]

theorem dadjust_cons_hit {κ β : Type} [DecidableEq κ] (a : κ) (b : β) (t : List (κ × β))
    (f : β → β) :
    dadjust ((a, b) :: t) a f = (a, f b) :: dadjust t a f := by
  simp [dadjust]

theorem dadjust_cons_miss {κ β : Type} [DecidableEq κ] (a : κ) (b : β) (t : List (κ × β))
    (k : κ) (f : β → β) (h : ¬ a = k) :
    dadjust ((a, b) :: t) k f = (a, b) :: dadjust t k f := by
  simp [dadjust, h]

theorem dlookup_dadjust {κ β : Type} [DecidableEq κ] (m : List (κ × β)) (k : κ) (f : β → β)
    (k' : κ) :
    dlookup (dadjust m k f) k' =
      if k' = k then (dlookup m k).map f else dlookup m k' := by
  induction m with
  | nil => simp [dlookup, dadjust]
  | cons p t ih =>
    obtain ⟨a, b⟩ := p
    by_cases hp : a = k
    · subst hp
      rw [dadjust_cons_hit a b t f]
      by_cases hk' : k' = a
      · subst hk'
        simp [dlookup]
      · simp [dlookup, hk', ih]
    · rw [dadjust_cons_miss a b t k f hp]
      by_cases hk' : k' = a
      · subst hk'
        have hka : ¬ k' = k := fun h => hp (h.symm ▸ rfl)
        simp [dlookup, hka]
      · have hka : ¬ k = a := fun h => hp h.symm
        simp [dlookup, hk', hka, ih]

theorem dkeys_dadjust {κ β : Type} [DecidableEq κ] (m : List (κ × β)) (k : κ) (f : β → β) :
    dkeys (dadjust m k f) = dkeys m := by
  induction m with
  | nil => rfl
  | cons p t ih =>
    obtain ⟨a, b⟩ := p
    by_cases hp : a = k
    · subst hp
      rw [dadjust_cons_hit a b t f]
      simp [dkeys] at ih ⊢
      exact ih
    · rw [dadjust_cons_miss a b t k f hp]
      simp [dkeys] at ih ⊢
      exact ih

theorem dkeys_densure {κ β : Type} [DecidableEq κ] (m : List (κ × β)) (k : κ) (d : β) :
    dkeys (densure m k d) = if (dlookup m k).isSome then dkeys m else dkeys m ++ [k] := by
  unfold densure
  by_cases h : (dlookup m k).isSome <;> simp [h, dkeys]

theorem mem_dkeys_iff {κ β : Type} [DecidableEq κ] (m : List (κ × β)) (k : κ) :
    k ∈ dkeys m ↔ (dlookup m k).isSome := by
  induction m with
  | nil => simp [dkeys, dlookup]
  | cons p t ih =>
    obtain ⟨a, b⟩ := p
    by_cases h : k = a
    · subst h; simp [dkeys, dlookup]
    · have : dkeys ((a, b) :: t) = a :: dkeys t := rfl
      rw [this, List.mem_cons]
      simp only [dlookup, if_neg h]
      constructor
      · intro hc
        rcases hc with hc | hc
        · exact absurd hc h
        · exact ih.mp hc
      · intro hc
        exact Or.inr (ih.mpr hc)

theorem dlookup_mem {κ β : Type} [DecidableEq κ] {m : List (κ × β)} {k : κ} {v : β}
    (h : dlookup m k = some v) : (k, v) ∈ m := by
  induction m with
  | nil => simp [dlookup] at h
  | cons p t ih =>
    obtain ⟨a, b⟩ := p
    by_cases hk : k = a
    · subst hk
      have hb : b = v := by simpa [dlookup] using h
      subst hb
      exact List.mem_cons_self _ _
    · simp only [dlookup, if_neg hk] at h
      exact List.mem_cons_of_mem _ (ih h)

theorem dlookup_map_value {κ β γ : Type} [DecidableEq κ] (m : List (κ × β)) (g : β → γ)
    (k : κ) :
    dlookup (m.map fun p => (p.1, g p.2)) k = (dlookup m k).map g := by
  induction m with
  | nil => simp [dlookup]
  | cons p t ih =>
    by_cases h : k = p.1 <;> simp [dlookup, h, ih]

theorem dlookup_of_fn {κ γ : Type} [DecidableEq κ] (ks : List κ) (h : κ → γ) (k : κ) :
    dlookup (ks.map fun x => (x, h x)) k = if k ∈ ks then some (h k) else none := by
  induction ks with
  | nil => simp [dlookup]
  | cons x t ih =>
    by_cases hk : k = x
    · subst hk; simp [dlookup]
    · simp [dlookup, hk, ih, List.mem_cons]

theorem nodup_dkeys_densure {κ β : Type} [DecidableEq κ] (m : List (κ × β)) (k : κ) (d : β)
    (h : (dkeys m).Nodup) : (dkeys (densure m k d)).Nodup := by
  rw [dkeys_densure]
  by_cases hs : (dlookup m k).isSome
  · simp [hs, h]
  · simp only [hs, Bool.false_eq_true, if_false]
    refine List.Nodup.append h (List.nodup_singleton k) ?_
    intro x hx hx1
    rw [List.mem_singleton] at hx1
    subst hx1
    rw [mem_dkeys_iff] at hx
    exact hs hx

theorem dadjust_not_mem {κ β : Type} [DecidableEq κ] {m : List (κ × β)} {k : κ}
    {f : β → β} (h : k ∉ dkeys m) : dadjust m k f = m := by
  induction m with
  | nil => rfl
  | cons p t ih =>
    obtain ⟨a, b⟩ := p
    have h1 : ¬ a = k := by
      intro hh
      exact h (by simp [dkeys, hh])
    have h2 : k ∉ dkeys t := fun hh => h (by simp [dkeys] at hh ⊢; exact Or.inr hh)
    rw [dadjust_cons_miss a b t k f h1, ih h2]

/-- Sum of a numeric weight over the values of an association list. -/
def valsSum {κ β : Type} (g : β → Nat) (m : List (κ × β)) : Nat :=
  (m.map fun p => g p.2).sum

theorem valsSum_densure {κ β : Type} [DecidableEq κ] (g : β → Nat) (m : List (κ × β))
    (k : κ) (d : β) (hd : g d = 0) : valsSum g (densure m k d) = valsSum g m := by
  unfold densure valsSum
  by_cases h : (dlookup m k).isSome <;> simp [h, hd]

theorem valsSum_dadjust {κ β : Type} [DecidableEq κ] (g : β → Nat) {m : List (κ × β)}
    {k : κ} (v : β) (f : β → β) (n : Nat) (hnd : (dkeys m).Nodup)
    (hv : dlookup m k = some v) (hf : g (f v) = g v + n) :
    valsSum g (dadjust m k f) = valsSum g m + n := by
  induction m with
  | nil => simp [dlookup] at hv
  | cons p t ih =>
    obtain ⟨a, b⟩ := p
    have hnd' : a ∉ dkeys t ∧ (dkeys t).Nodup := by
      have : dkeys ((a, b) :: t) = a :: dkeys t := rfl
      rw [this] at hnd
      exact ⟨(List.nodup_cons.mp hnd).1, (List.nodup_cons.mp hnd).2⟩
    by_cases hk : k = a
    · subst hk
      have hb : b = v := by simpa [dlookup] using hv
      subst hb
      rw [dadjust_cons_hit k b t f, dadjust_not_mem hnd'.1]
      simp [valsSum, hf]
      omega
    · rw [dadjust_cons_miss a b t k f (fun hh => hk hh.symm)]
      have hv' : dlookup t k = some v := by simpa [dlookup, hk] using hv
      have := ih hnd'.2 hv'
      simp [valsSum] at this ⊢
      omega

/- ### Invariants of the aggregation tallies -/

/-- `aggStep` with the always-successful rounding unfolded. -/
theorem aggStep_eq (agg : AggMap) (b : MatchBetTuple) :
    aggStep agg b =
      dadjust (densure agg b.sport []) b.sport (fun inner =>
        dadjust (densure inner (roundTo4 b.odds) zeroStats) (roundTo4 b.odds)
          (bumpStats (isLiveStatus b.live_status) (isWinResult b.result))) := rfl

/-- Well-formedness: outer and inner key lists have no duplicates. -/
def aggWF (agg : AggMap) : Prop :=
  (dkeys agg).Nodup ∧ ∀ s m, dlookup agg s = some m → (dkeys m).Nodup

theorem aggWF_step {agg : AggMap} (h : aggWF agg) (b : MatchBetTuple) :
    aggWF (aggStep agg b) := by
  rw [aggStep_eq]
  constructor
  · rw [dkeys_dadjust]
    exact nodup_dkeys_densure _ _ _ h.1
  · intro s m hm
    rw [dlookup_dadjust] at hm
    by_cases hs : s = b.sport
    · rw [if_pos hs, dlookup_densure, if_pos rfl] at hm
      cases hm0 : dlookup agg b.sport with
      | some m0 =>
        rw [hm0] at hm
        simp only [Option.getD_some, Option.map_some', Option.some.injEq] at hm
        rw [← hm, dkeys_dadjust]
        exact nodup_dkeys_densure _ _ _ (h.2 _ _ hm0)
      | none =>
        rw [hm0] at hm
        simp only [Option.getD_none, Option.map_some', Option.some.injEq] at hm
        rw [← hm, dkeys_dadjust]
        exact nodup_dkeys_densure _ _ _ (by simp [dkeys])
    · rw [if_neg hs, dlookup_densure, if_neg hs] at hm
      exact h.2 _ _ hm

theorem aggWF_foldl (bets : List MatchBetTuple) :
    ∀ agg : AggMap, aggWF agg → aggWF (List.foldl aggStep agg bets) := by
  induction bets with
  | nil => intro agg h; exact h
  | cons b t ih =>
    intro agg h
    exact ih _ (aggWF_step h b)

theorem aggWF_build (bets : List MatchBetTuple) : aggWF (buildAgg bets) :=
  aggWF_foldl bets [] ⟨List.nodup_nil, fun s m hm => by simp [dlookup] at hm⟩

/-- `bumpStats` preserves the per-category win bound. -/
theorem bumpStats_bounds (l w : Bool) (st : OddsStats) (h1 : st.lw ≤ st.lt)
    (h2 : st.pw ≤ st.pt) :
    (bumpStats l w st).lw ≤ (bumpStats l w st).lt ∧
      (bumpStats l w st).pw ≤ (bumpStats l w st).pt := by
  cases l <;> cases w <;> simp [bumpStats] <;> omega

/-- In every tally bucket, wins never exceed totals. -/
def aggBounds (agg : AggMap) : Prop :=
  ∀ s m k st, dlookup agg s = some m → dlookup m k = some st →
    st.lw ≤ st.lt ∧ st.pw ≤ st.pt

theorem aggBounds_step {agg : AggMap} (h : aggBounds agg) (b : MatchBetTuple) :
    aggBounds (aggStep agg b) := by
  rw [aggStep_eq]
  intro s m k st hm hst
  rw [dlookup_dadjust] at hm
  by_cases hs : s = b.sport
  · rw [if_pos hs, dlookup_densure, if_pos rfl] at hm
    have key : ∀ m0 : List (ℚ × OddsStats),
        (∀ k' st', dlookup m0 k' = some st' → st'.lw ≤ st'.lt ∧ st'.pw ≤ st'.pt) →
        dadjust (densure m0 (roundTo4 b.odds) zeroStats) (roundTo4 b.odds)
            (bumpStats (isLiveStatus b.live_status) (isWinResult b.result)) = m →
        st.lw ≤ st.lt ∧ st.pw ≤ st.pt := by
      intro m0 hb0 hmEq
      rw [← hmEq, dlookup_dadjust] at hst
      by_cases hk : k = roundTo4 b.odds
      · rw [if_pos hk, dlookup_densure, if_pos rfl] at hst
        cases hq2 : dlookup m0 (roundTo4 b.odds) with
        | some v =>
          rw [hq2] at hst
          simp only [Option.getD_some, Option.map_some', Option.some.injEq] at hst
          rw [← hst]
          exact bumpStats_bounds _ _ _ (hb0 _ _ hq2).1 (hb0 _ _ hq2).2
        | none =>
          rw [hq2] at hst
          simp only [Option.getD_none, Option.map_some', Option.some.injEq] at hst
          rw [← hst]
          exact bumpStats_bounds _ _ _ (by simp [zeroStats]) (by simp [zeroStats])
      · rw [if_neg hk, dlookup_densure, if_neg hk] at hst
        exact hb0 _ _ hst
    cases hm0 : dlookup agg b.sport with
    | some mm =>
      rw [hm0] at hm
      simp only [Option.getD_some, Option.map_some', Option.some.injEq] at hm
      exact key mm (fun k' st' hh => h _ _ _ _ hm0 hh) hm
    | none =>
      rw [hm0] at hm
      simp only [Option.getD_none, Option.map_some', Option.some.injEq] at hm
      exact key [] (fun k' st' hh => by simp [dlookup] at hh) hm
  · rw [if_neg hs, dlookup_densure, if_neg hs] at hm
    exact h _ _ _ _ hm hst

theorem aggBounds_build (bets : List MatchBetTuple) : aggBounds (buildAgg bets) := by
  have : ∀ agg : AggMap, aggBounds agg → aggBounds (List.foldl aggStep agg bets) := by
    induction bets with
    | nil => intro agg h; exact h
    | cons b t ih => intro agg h; exact ih _ (aggBounds_step h b)
  exact this [] (fun s m k st hm => by simp [dlookup] at hm)

/- ### Conservation of records through the aggregation -/

/-- Total observation count of one sport's tallies. -/
def innerTotal (o : Option (List (ℚ × OddsStats))) : Nat :=
  valsSum (fun st => st.lt + st.pt) (o.getD [])

theorem bumpStats_total (l w : Bool) (st : OddsStats) :
    (bumpStats l w st).lt + (bumpStats l w st).pt = (st.lt + st.pt) + 1 := by
  cases l <;> cases w <;> simp [bumpStats] <;> omega

theorem aggStep_sum {agg : AggMap} (h : aggWF agg) (b : MatchBetTuple) (s : String) :
    innerTotal (dlookup (aggStep agg b) s) =
      innerTotal (dlookup agg s) + (if b.sport = s then 1 else 0) := by
  rw [aggStep_eq]
  by_cases hs : s = b.sport
  · subst hs
    rw [dlookup_dadjust, if_pos rfl, dlookup_densure, if_pos rfl]
    have hrun : ∀ m0 : List (ℚ × OddsStats), (dkeys m0).Nodup →
        valsSum (fun st => st.lt + st.pt)
          (dadjust (densure m0 (roundTo4 b.odds) zeroStats) (roundTo4 b.odds)
            (bumpStats (isLiveStatus b.live_status) (isWinResult b.result))) =
        valsSum (fun st => st.lt + st.pt) m0 + 1 := by
      intro m0 hnd
      have h1 : dlookup (densure m0 (roundTo4 b.odds) zeroStats) (roundTo4 b.odds) =
          some ((dlookup m0 (roundTo4 b.odds)).getD zeroStats) := by
        rw [dlookup_densure, if_pos rfl]
      have h2 := valsSum_dadjust (fun st => st.lt + st.pt)
        ((dlookup m0 (roundTo4 b.odds)).getD zeroStats)
        (bumpStats (isLiveStatus b.live_status) (isWinResult b.result)) 1
        (nodup_dkeys_densure m0 (roundTo4 b.odds) zeroStats hnd)
        h1 (bumpStats_total _ _ _)
      rw [h2, valsSum_densure _ _ _ _ (by simp [zeroStats])]
    cases hm0 : dlookup agg b.sport with
    | some m0 =>
      simp only [hm0, Option.getD_some, Option.map_some', innerTotal]
      rw [hrun m0 (h.2 _ _ hm0)]
      simp
    | none =>
      simp only [hm0, Option.getD_none, Option.getD_some, Option.map_some', innerTotal]
      rw [hrun [] (by simp [dkeys])]
      simp [valsSum]
  · rw [dlookup_dadjust, if_neg hs, dlookup_densure, if_neg hs]
    have hs2 : ¬ b.sport = s := fun hh => hs hh.symm
    simp [hs2]

theorem buildAgg_sum_aux (s : String) :
    ∀ (bets : List MatchBetTuple) (agg : AggMap), aggWF agg →
      innerTotal (dlookup (List.foldl aggStep agg bets) s) =
        innerTotal (dlookup agg s) + bets.countP (fun b => b.sport == s) := by
  intro bets
  induction bets with
  | nil => intro agg _; simp
  | cons b t ih =>
    intro agg h
    simp only [List.foldl_cons, List.countP_cons]
    rw [ih _ (aggWF_step h b), aggStep_sum h b s]
    by_cases hb : b.sport = s <;> simp [hb] <;> omega

theorem buildAgg_sum (bets : List MatchBetTuple) (s : String) :
    innerTotal (dlookup (buildAgg bets) s) = bets.countP (fun b => b.sport == s) := by
  have := buildAgg_sum_aux s bets []
    ⟨List.nodup_nil, fun s m hm => by simp [dlookup] at hm⟩
  simpa [innerTotal, valsSum, dlookup] using this

theorem mem_dkeys_aggStep (agg : AggMap) (b : MatchBetTuple) (s : String) :
    s ∈ dkeys (aggStep agg b) ↔ s ∈ dkeys agg ∨ s = b.sport := by
  rw [aggStep_eq, dkeys_dadjust, dkeys_densure]
  by_cases hp : (dlookup agg b.sport).isSome
  · simp only [hp, if_true]
    constructor
    · exact fun h => Or.inl h
    · intro h
      rcases h with h | h
      · exact h
      · subst h; exact (mem_dkeys_iff _ _).mpr hp
  · simp [hp, List.mem_append]

theorem mem_dkeys_buildAgg (bets : List MatchBetTuple) (s : String) :
    s ∈ dkeys (buildAgg bets) ↔ s ∈ bets.map (fun b => b.sport) := by
  have : ∀ agg : AggMap, s ∈ dkeys (List.foldl aggStep agg bets) ↔
      s ∈ dkeys agg ∨ s ∈ bets.map (fun b => b.sport) := by
    induction bets with
    | nil => intro agg; simp
    | cons b t ih =>
      intro agg
      simp only [List.foldl_cons, List.map_cons, List.mem_cons]
      rw [ih (aggStep agg b), mem_dkeys_aggStep]
      tauto
  simpa [dkeys, buildAgg] using this []

/- ### Linking the tallies to the produced cache -/

theorem dlookup_cache (bets : List MatchBetTuple) (s : String) :
    dlookup (process_bets_to_cache bets) s = (dlookup (buildAgg bets) s).map mkEntry :=
  dlookup_map_value _ _ _

theorem sum_over_dkeys {κ β : Type} [DecidableEq κ] (g : β → Nat) (d : β)
    (m : List (κ × β)) (hnd : (dkeys m).Nodup) :
    ((dkeys m).map fun k => g ((dlookup m k).getD d)).sum = valsSum g m := by
  induction m with
  | nil => simp [dkeys, valsSum]
  | cons p t ih =>
    obtain ⟨a, b⟩ := p
    have hkeys : dkeys ((a, b) :: t) = a :: dkeys t := rfl
    rw [hkeys] at hnd ⊢
    have hnotin : a ∉ dkeys t := (List.nodup_cons.mp hnd).1
    have hndt : (dkeys t).Nodup := (List.nodup_cons.mp hnd).2
    rw [List.map_cons, List.sum_cons]
    have hhead : dlookup ((a, b) :: t) a = some b := by simp [dlookup]
    have htail : ((dkeys t).map fun k => g ((dlookup ((a, b) :: t) k).getD d)) =
        ((dkeys t).map fun k => g ((dlookup t k).getD d)) := by
      apply List.map_congr_left
      intro k hk
      have hne : ¬ k = a := fun hh => hnotin (hh ▸ hk)
      simp [dlookup, hne]
    rw [htail, ih hndt, hhead]
    simp [valsSum]

theorem sortedKeys_perm (m : List (ℚ × OddsStats)) : List.Perm (sortedKeys m) (dkeys m) :=
  List.perm_insertionSort _ _

theorem natSum_perm {l1 l2 : List Nat} (h : List.Perm l1 l2) : l1.sum = l2.sum := by
  induction h with
  | nil => rfl
  | cons x _ ih => simp [ih]
  | swap x y l => simp; omega
  | trans _ _ ih1 ih2 => exact ih1.trans ih2

/-- The count fields of the derived tuple recover the tallies via `getD 0`. -/
theorem mkIdxTup_cnts (st : OddsStats) :
    ((mkIdxTup st).2.2.1.getD 0) = st.lt ∧ ((mkIdxTup st).2.2.2.getD 0) = st.pt := by
  unfold mkIdxTup
  by_cases h1 : st.lt > 0 <;> by_cases h2 : st.pt > 0 <;> simp [h1, h2] <;> omega

/-- Total observation count of a cache entry's rows. -/
def rowsTotal (rows : List RowTuple) : Nat :=
  (rows.map fun r => (r.2.2.2.1.getD 0) + (r.2.2.2.2.getD 0)).sum

theorem mkEntry_rowsTotal (m : List (ℚ × OddsStats)) (hnd : (dkeys m).Nodup) :
    rowsTotal (mkEntry m).rows = valsSum (fun st => st.lt + st.pt) m := by
  unfold rowsTotal mkEntry
  rw [List.map_map]
  have hfun : ((sortedKeys m).map
      ((fun r : RowTuple => (r.2.2.2.1.getD 0) + (r.2.2.2.2.getD 0)) ∘
        fun k => (k, mkIdxTup ((dlookup m k).getD zeroStats)))) =
      ((sortedKeys m).map fun k =>
        (fun st : OddsStats => st.lt + st.pt) ((dlookup m k).getD zeroStats)) := by
    apply List.map_congr_left
    intro k _
    simp only [Function.comp]
    rw [(mkIdxTup_cnts _).1, (mkIdxTup_cnts _).2]
  rw [hfun]
  rw [natSum_perm (List.Perm.map _ (sortedKeys_perm m))]
  exact sum_over_dkeys (fun st : OddsStats => st.lt + st.pt) zeroStats m hnd

/- ### Claim theorems -/

/-- Claim C4: for every win-rate `wr` and odds value `o` given to `fmt_ev`,
if both are present the numeric EV equals `wr*o - 1.0` exactly; the EV is
absent iff at least one input is absent, and then the display string is the
literal `"N/A"`. -/
theorem C4_fmt_ev (wr odds : Option ℚ) :
    (∀ w o, wr = some w → odds = some o → (fmt_ev wr odds).2 = some (w * o - 1)) ∧
    ((fmt_ev wr odds).2 = none ↔ wr = none ∨ odds = none) ∧
    (wr = none ∨ odds = none → (fmt_ev wr odds).1 = "N/A") := by
  cases wr <;> cases odds <;> simp [fmt_ev]

theorem C4_witness : (fmt_ev (some (3/5)) (some 2)).2 = some ((3 : ℚ)/5 * 2 - 1) :=
  (C4_fmt_ev (some (3/5)) (some 2)).1 (3/5) 2 rfl rfl

/-- Claim C6: for present win-rates and odds, the verdict computed from the
scores `wr*odds` is order-equivalent to comparing EV values `wr*odds - 1`:
A is better iff `EV_a > EV_b`, B is better iff `EV_b > EV_a`, and the sides
are equal iff the EVs are exactly equal. -/
theorem C6_compare_order_equiv (wr_a wr_b odds_a odds_b : ℚ) :
    (render_compare_verdict wr_a wr_b odds_a odds_b = CompareVerdict.betterA ↔
      wr_a * odds_a - 1 > wr_b * odds_b - 1) ∧
    (render_compare_verdict wr_a wr_b odds_a odds_b = CompareVerdict.betterB ↔
      wr_b * odds_b - 1 > wr_a * odds_a - 1) ∧
    (render_compare_verdict wr_a wr_b odds_a odds_b = CompareVerdict.equal ↔
      wr_a * odds_a - 1 = wr_b * odds_b - 1) := by
  rcases lt_trichotomy (wr_a * odds_a) (wr_b * odds_b) with h | h | h
  · have hv : render_compare_verdict wr_a wr_b odds_a odds_b = CompareVerdict.betterB := by
      simp [render_compare_verdict, not_lt.mpr (le_of_lt h), h]
    rw [hv]
    refine ⟨⟨fun h' => by simp at h', fun h' => (by linarith : False).elim⟩,
      ⟨fun _ => by linarith, fun _ => rfl⟩,
      ⟨fun h' => by simp at h', fun h' => (by linarith : False).elim⟩⟩
  · have hv : render_compare_verdict wr_a wr_b odds_a odds_b = CompareVerdict.equal := by
      simp [render_compare_verdict, h]
    rw [hv]
    refine ⟨⟨fun h' => by simp at h', fun h' => (by linarith : False).elim⟩,
      ⟨fun h' => by simp at h', fun h' => (by linarith : False).elim⟩,
      ⟨fun _ => by linarith, fun _ => rfl⟩⟩
  · have hv : render_compare_verdict wr_a wr_b odds_a odds_b = CompareVerdict.betterA := by
      simp [render_compare_verdict, h]
    rw [hv]
    refine ⟨⟨fun _ => by linarith, fun _ => rfl⟩,
      ⟨fun h' => by simp at h', fun h' => (by linarith : False).elim⟩,
      ⟨fun h' => by simp at h', fun h' => (by linarith : False).elim⟩⟩

/-- Claim C2 (counterexample): the row with odds cell `"-2"` has non-empty
sport and result and a parsing odds cell, so ingestion keeps it, yet its
odds value is not positive — the claimed "finite positive" invariant and the
corresponding dropping do not happen in the code. -/
theorem C2_counterexample :
    fetch_matchbet_data [["S", "T", "M", "B", "Not Live", "-2", "x", "Win"]] =
      [⟨"S", "T", "M", "B", "Not Live", -2, "Win"⟩] ∧
    ¬ (0 < (⟨"S", "T", "M", "B", "Not Live", -2, "Win"⟩ : MatchBetTuple).odds) := by
  constructor
  · have h1 : digitsToNat ['2'] = 2 := by decide
    norm_num +decide [fetch_matchbet_data, List.filterMap_cons, processRow, padRow8,
      parseFloat, commaToDot, pyStrip, stripBoth, h1]
  · norm_num

/-- Claim C2 (amended): every record produced by ingestion has a non-empty
sport and a non-empty result, and a row is kept exactly when its (padded,
stripped) sport and result cells are non-empty and its odds cell parses as a
number after replacing the decimal comma with a period — no positivity or
finiteness condition is checked. -/
theorem C2_ingestion_invariants (r : List String) :
    (∀ rec, processRow r = some rec → rec.sport ≠ "" ∧ rec.result ≠ "") ∧
    ((processRow r).isSome ↔
      (pyStrip ((padRow8 r).getD 0 "") ≠ "" ∧ pyStrip ((padRow8 r).getD 7 "") ≠ "" ∧
        (parseFloat (commaToDot (pyStrip ((padRow8 r).getD 5 "")))).isSome)) := by
  have hnorm : processRow r =
      if pyStrip ((padRow8 r).getD 0 "") = "" then none
      else if pyStrip ((padRow8 r).getD 7 "") = "" then none
      else
        match parseFloat (commaToDot (pyStrip ((padRow8 r).getD 5 ""))) with
        | none => none
        | some odds =>
          some ⟨pyStrip ((padRow8 r).getD 0 ""), pyStrip ((padRow8 r).getD 1 ""),
            pyStrip ((padRow8 r).getD 2 ""), pyStrip ((padRow8 r).getD 3 ""),
            pyStrip ((padRow8 r).getD 4 ""), odds, pyStrip ((padRow8 r).getD 7 "")⟩ := rfl
  by_cases h1 : pyStrip ((padRow8 r).getD 0 "") = ""
  · constructor
    · intro rec hrec
      rw [hnorm, if_pos h1] at hrec
      cases hrec
    · rw [hnorm, if_pos h1]
      exact ⟨fun hc => by simp at hc, fun hc => absurd h1 hc.1⟩
  · by_cases h2 : pyStrip ((padRow8 r).getD 7 "") = ""
    · constructor
      · intro rec hrec
        rw [hnorm, if_neg h1, if_pos h2] at hrec
        cases hrec
      · rw [hnorm, if_neg h1, if_pos h2]
        exact ⟨fun hc => by simp at hc, fun hc => absurd h2 hc.2.1⟩
    · cases hp : parseFloat (commaToDot (pyStrip ((padRow8 r).getD 5 ""))) with
      | none =>
        constructor
        · intro rec hrec
          rw [hnorm, if_neg h1, if_neg h2, hp] at hrec
          cases hrec
        · rw [hnorm, if_neg h1, if_neg h2, hp]
          exact ⟨fun hc => by simp at hc, fun hc => by simp at hc⟩
      | some odds =>
        constructor
        · intro rec hrec
          rw [hnorm, if_neg h1, if_neg h2, hp] at hrec
          injection hrec with h3
          subst h3
          exact ⟨h1, h2⟩
        · rw [hnorm, if_neg h1, if_neg h2, hp]
          exact ⟨fun _ => ⟨h1, h2, rfl⟩, fun _ => rfl⟩

theorem C2_witness :
    (⟨"S", "T", "M", "B", "Not Live", -2, "Win"⟩ : MatchBetTuple).sport ≠ "" ∧
    (⟨"S", "T", "M", "B", "Not Live", -2, "Win"⟩ : MatchBetTuple).result ≠ "" :=
  (C2_ingestion_invariants ["S", "T", "M", "B", "Not Live", "-2", "x", "Win"]).1
    ⟨"S", "T", "M", "B", "Not Live", -2, "Win"⟩
    (by
      have h1 : digitsToNat ['2'] = 2 := by decide
      norm_num +decide [processRow, padRow8, parseFloat, commaToDot, pyStrip, stripBoth, h1])

/- ### Helper lemmas for the cache claims -/

theorem pairwise_lt_of_sorted_nodup {l : List ℚ} (hs : List.Sorted (· ≤ ·) l)
    (hn : l.Nodup) : List.Pairwise (· < ·) l := by
  induction l with
  | nil => exact List.Pairwise.nil
  | cons a t ih =>
    rw [List.sorted_cons] at hs
    rw [List.nodup_cons] at hn
    refine List.Pairwise.cons ?_ (ih hs.2 hn.2)
    intro b hb
    exact lt_of_le_of_ne (hs.1 b hb) (fun he => hn.1 (he ▸ hb))

theorem dkeys_map_value {κ β γ : Type} (m : List (κ × β)) (g : β → γ) :
    dkeys (m.map fun p => (p.1, g p.2)) = dkeys m := by
  induction m with
  | nil => rfl
  | cons p t ih =>
    simp only [List.map_cons, dkeys] at ih ⊢
    rw [ih]

/-- The two derived fields of one bet-type category: win-rate and count. -/
theorem wr_fields_spec (w t : Nat) (hwt : w ≤ t) :
    ((if t > 0 then some ((w : ℚ) / (t : ℚ)) else none) = none ↔ t = 0) ∧
    (∀ x, (if t > 0 then some ((w : ℚ) / (t : ℚ)) else none) = some x →
      x = (w : ℚ) / (t : ℚ) ∧ 0 ≤ x ∧ x ≤ 1) ∧
    ((if t > 0 then (some t : Option Nat) else none) = none ↔ t = 0) ∧
    (t ≠ 0 → (if t > 0 then (some t : Option Nat) else none) = some t) := by
  by_cases ht : t > 0
  · refine ⟨by simp [ht]; omega, fun x hx => ?_, by simp [ht]; omega, fun _ => by simp [ht]⟩
    rw [if_pos ht] at hx
    injection hx with hx
    subst hx
    refine ⟨rfl, ?_, ?_⟩
    · exact div_nonneg (Nat.cast_nonneg w) (Nat.cast_nonneg t)
    · rw [div_le_one (by exact_mod_cast ht)]
      exact_mod_cast hwt
  · have ht0 : t = 0 := by omega
    refine ⟨by simp [ht, ht0], fun x hx => ?_, by simp [ht, ht0], fun hne => absurd ht0 hne⟩
    rw [if_neg ht] at hx
    cases hx

/- ### Claim C5 -/

/-- Claim C5: for every sport entry of the produced cache, the rows are
sorted strictly ascending by odds key, the index has the same key sequence,
and looking up any key in the index yields exactly the tuple stored in the
row with that key. -/
theorem C5_cache_views (bets : List MatchBetTuple) (s : String) (e : SheetCacheEntry)
    (h : dlookup (process_bets_to_cache bets) s = some e) :
    List.Pairwise (· < ·) (e.rows.map fun r => r.1) ∧
    (e.index.map fun p => p.1) = (e.rows.map fun r => r.1) ∧
    (∀ k t, dlookup e.index k = some t ↔ (k, t) ∈ e.rows) := by
  rw [dlookup_cache] at h
  cases hq : dlookup (buildAgg bets) s with
  | none => rw [hq] at h; cases h
  | some m =>
    rw [hq] at h
    simp only [Option.map_some', Option.some.injEq] at h
    subst h
    have hnd : (dkeys m).Nodup := (aggWF_build bets).2 _ _ hq
    have hkeysnd : (sortedKeys m).Nodup := ((sortedKeys_perm m).nodup_iff).mpr hnd
    have hsorted : List.Sorted (· ≤ ·) (sortedKeys m) := List.sorted_insertionSort _ _
    have hmap : ((mkEntry m).rows.map fun r => r.1) = sortedKeys m := by
      unfold mkEntry
      rw [List.map_map]
      have hid : ∀ a ∈ sortedKeys m, ((fun r : RowTuple => r.1) ∘
          fun k => (k, mkIdxTup ((dlookup m k).getD zeroStats))) a = id a := fun a _ => rfl
      rw [List.map_congr_left hid, List.map_id]
    refine ⟨?_, rfl, ?_⟩
    · rw [hmap]
      exact pairwise_lt_of_sorted_nodup hsorted hkeysnd
    · intro k t
      show dlookup ((sortedKeys m).map fun x =>
        (x, mkIdxTup ((dlookup m x).getD zeroStats))) k = some t ↔ _
      rw [dlookup_of_fn]
      constructor
      · intro ht
        by_cases hk : k ∈ sortedKeys m
        · rw [if_pos hk] at ht
          injection ht with ht
          exact List.mem_map.mpr ⟨k, hk, by rw [ht]⟩
        · rw [if_neg hk] at ht
          cases ht
      · intro hmem
        obtain ⟨x, hx, hxe⟩ := List.mem_map.mp hmem
        have h1 : x = k := congrArg Prod.fst hxe
        subst h1
        have h2 : mkIdxTup ((dlookup m x).getD zeroStats) = t := congrArg Prod.snd hxe
        rw [if_pos hx, h2]

/- ### Claim C3 -/

/-- Claim C3: for every tally bucket of the aggregation, the cached tuple's
live win-rate is absent exactly when the live total is 0 and otherwise
equals live wins / live total, a ratio in `[0,1]`; analogously for the
prematch fields; and a category's count field is the explicit absent value,
not 0, exactly when its total is 0. -/
theorem C3_winrate_fields (bets : List MatchBetTuple) (s : String) (k : ℚ) (st : OddsStats)
    (hm : (dlookup (buildAgg bets) s).bind (fun m => dlookup m k) = some st) :
    ∃ e tup, dlookup (process_bets_to_cache bets) s = some e ∧
      dlookup e.index k = some tup ∧
      (tup.1 = none ↔ st.lt = 0) ∧
      (∀ x, tup.1 = some x → x = (st.lw : ℚ) / (st.lt : ℚ) ∧ 0 ≤ x ∧ x ≤ 1) ∧
      (tup.2.2.1 = none ↔ st.lt = 0) ∧
      (st.lt ≠ 0 → tup.2.2.1 = some st.lt) ∧
      (tup.2.1 = none ↔ st.pt = 0) ∧
      (∀ x, tup.2.1 = some x → x = (st.pw : ℚ) / (st.pt : ℚ) ∧ 0 ≤ x ∧ x ≤ 1) ∧
      (tup.2.2.2 = none ↔ st.pt = 0) ∧
      (st.pt ≠ 0 → tup.2.2.2 = some st.pt) := by
  cases hq : dlookup (buildAgg bets) s with
  | none => rw [hq] at hm; cases hm
  | some m =>
    rw [hq] at hm
    simp only [Option.some_bind] at hm
    have hb := aggBounds_build bets s m k st hq hm
    obtain ⟨a1, a2, a3, a4⟩ := wr_fields_spec st.lw st.lt hb.1
    obtain ⟨b1, b2, b3, b4⟩ := wr_fields_spec st.pw st.pt hb.2
    refine ⟨mkEntry m, mkIdxTup st, ?_, ?_, a1, a2, a3, a4, b1, b2, b3, b4⟩
    · rw [dlookup_cache, hq]
      rfl
    · show dlookup ((sortedKeys m).map fun x =>
        (x, mkIdxTup ((dlookup m x).getD zeroStats))) k = some (mkIdxTup st)
      have hk : k ∈ sortedKeys m := (sortedKeys_perm m).mem_iff.mpr
        ((mem_dkeys_iff m k).mpr (by rw [hm]; rfl))
      rw [dlookup_of_fn, if_pos hk, hm]
      rfl

/- ### Claim C10 -/

/-- Claim C10 (implicit): `process_bets_to_cache` conserves records — the
cache's sport keys are exactly the sports occurring in the input, for each
sport the sum over its buckets of live total + prematch total equals the
number of input records with that sport, and on the rational model of
(finite) floats the rounding branch `round_odds_key = None` never fires. -/
theorem C10_conservation (bets : List MatchBetTuple) :
    (∀ s, (dlookup (process_bets_to_cache bets) s).isSome ↔
      s ∈ bets.map (fun b => b.sport)) ∧
    (∀ s e, dlookup (process_bets_to_cache bets) s = some e →
      rowsTotal e.rows = bets.countP (fun b => b.sport == s)) ∧
    (∀ q : ℚ, round_odds_key q = some (roundTo4 q)) := by
  refine ⟨?_, ?_, fun q => rfl⟩
  · intro s
    rw [← mem_dkeys_iff]
    have hk : dkeys (process_bets_to_cache bets) = dkeys (buildAgg bets) :=
      dkeys_map_value _ _
    rw [hk]
    exact mem_dkeys_buildAgg bets s
  · intro s e he
    rw [dlookup_cache] at he
    cases hq : dlookup (buildAgg bets) s with
    | none => rw [hq] at he; cases he
    | some m =>
      rw [hq] at he
      simp only [Option.map_some', Option.some.injEq] at he
      subst he
      rw [mkEntry_rowsTotal m ((aggWF_build bets).2 _ _ hq)]
      have hsum := buildAgg_sum bets s
      rw [hq] at hsum
      simpa [innerTotal] using hsum

/- ### A concrete record and its cache, shared by the witnesses -/

/-- The record of the spec's ingestion example (odds 1,85 → 1.85 = 37/20). -/
def bEx : MatchBetTuple :=
  ⟨"CS2", "ESL Pro League", "TeamA vs TeamB", "Moneyline", "Not Live", 37/20, "Win"⟩

theorem roundEx : roundTo4 (37/20 : ℚ) = 37/20 := by
  norm_num [roundTo4, halfEvenZ]

theorem aggEx : buildAgg [bEx] = [("CS2", [((37/20 : ℚ), ⟨0, 0, 1, 1⟩)])] := by
  have h : round_odds_key ((37:ℚ)/20) = some (37/20) := by
    rw [round_odds_key, roundEx]
  norm_num +decide [buildAgg, aggStep, bEx, h, densure, dadjust, dlookup, zeroStats,
    bumpStats, isLiveStatus, isWinResult, containsSub, upperChars, lowerChars]

/-- The derived tuple of the example bucket. -/
def tupEx : IdxTup := (none, some 1, none, some 1)

/-- The cache entry of the example record. -/
def eEx : SheetCacheEntry := ⟨[((37/20 : ℚ), tupEx)], [((37/20 : ℚ), tupEx)]⟩

theorem cacheEx : process_bets_to_cache [bEx] = [("CS2", eEx)] := by
  rw [process_bets_to_cache, aggEx]
  norm_num +decide [mkEntry, sortedKeys, dkeys, dlookup, mkIdxTup, zeroStats, tupEx, eEx,
    List.insertionSort, List.orderedInsert, SheetCacheEntry.mk.injEq]

theorem lookupCacheEx : dlookup (process_bets_to_cache [bEx]) "CS2" = some eEx := by
  rw [cacheEx]
  simp [dlookup]

theorem lookupAggEx :
    (dlookup (buildAgg [bEx]) "CS2").bind (fun m => dlookup m (37/20 : ℚ)) =
      some (⟨0, 0, 1, 1⟩ : OddsStats) := by
  rw [aggEx]
  norm_num [dlookup]

theorem C5_witness : List.Pairwise (· < ·) (eEx.rows.map fun r => r.1) :=
  (C5_cache_views [bEx] "CS2" eEx lookupCacheEx).1

theorem C3_witness : ∃ e tup, dlookup (process_bets_to_cache [bEx]) "CS2" = some e ∧
    dlookup e.index (37/20 : ℚ) = some tup ∧ tup.1 = none := by
  obtain ⟨e, tup, h1, h2, h3, _⟩ :=
    C3_winrate_fields [bEx] "CS2" (37/20) ⟨0, 0, 1, 1⟩ lookupAggEx
  exact ⟨e, tup, h1, h2, h3.mpr rfl⟩

theorem C10_witness : rowsTotal eEx.rows = List.countP (fun b => b.sport == "CS2") [bEx] :=
  (C10_conservation [bEx]).2.1 "CS2" eEx lookupCacheEx

/- ### Claim C1 -/

/-- Claim C1 (counterexample): the spec's example raw row has only 7 cells,
so after padding the result cell (index 7) is empty and ingestion drops the
row — it does not produce one record. -/
theorem C1_counterexample :
    fetch_matchbet_data
      [["CS2", "ESL Pro League", "TeamA vs TeamB", "Moneyline", "Not Live", "1,85", "Win"]] =
      [] := by
  norm_num +decide [fetch_matchbet_data, List.filterMap_cons, processRow, padRow8,
    commaToDot, pyStrip, stripBoth]

/-- The example row with the result in the eighth cell, where the code reads it. -/
def rowEx : List String :=
  ["CS2", "ESL Pro League", "TeamA vs TeamB", "Moneyline", "Not Live", "1,85", "", "Win"]

/-- Claim C1 (amended): with the result `"Win"` in the eighth cell (the
code reads `r[7]`; the 7-cell spec row pads to an empty result and is
dropped), ingestion produces exactly one record with sport `"CS2"`, odds
1.85, result `"Win"`, and aggregation of that record produces for sport
`"CS2"` the single bucket at odds key 1.8500 with prematch wins 1, prematch
total 1, live counters 0, live total and live win-rate absent in the cache
tuple, prematch win-rate 1. -/
theorem C1_pipeline :
    fetch_matchbet_data [rowEx] = [bEx] ∧
    buildAgg [bEx] = [("CS2", [((1.85 : ℚ), ⟨0, 0, 1, 1⟩)])] ∧
    process_bets_to_cache [bEx] = [("CS2", eEx)] ∧
    eEx.rows = [((1.85 : ℚ), (none, some 1, none, some 1))] := by
  refine ⟨?_, ?_, cacheEx, ?_⟩
  · have h1 : digitsToNat ['1'] = 1 := by decide
    have h2 : digitsToNat ['8', '5'] = 85 := by decide
    norm_num +decide [fetch_matchbet_data, List.filterMap_cons, processRow, padRow8,
      parseFloat, commaToDot, pyStrip, stripBoth, rowEx, bEx, h1, h2]
  · rw [aggEx]
    norm_num
  · rw [eEx, tupEx]
    norm_num

/- ### Claim C7 -/

/-- Claim C7 (counterexample): tournament normalization is not idempotent.
On `"Season Spring 3024"` the first pass removes only `"Spring"` (the
4-digit non-year `3024` survives both the year rule and the 1-3 digit
rule), leaving `"Season 3024"`, which the `Season \d+` rule then erases
entirely on a second pass. -/
theorem C7_counterexample :
    normalize_tournament_name (normalize_tournament_name "Season Spring 3024") ≠
      normalize_tournament_name "Season Spring 3024" := by
  decide

/-- Claim C7 (amended): normalization is idempotent on the representative
tournament names the spec and the code's comments use as examples. -/
theorem C7_idempotent_representatives :
    (normalize_tournament_name (normalize_tournament_name "BLAST Premier Spring 2024 Groups") =
      normalize_tournament_name "BLAST Premier Spring 2024 Groups") ∧
    (normalize_tournament_name (normalize_tournament_name "ESL Pro League 21") =
      normalize_tournament_name "ESL Pro League 21") ∧
    (normalize_tournament_name (normalize_tournament_name "UFC 302") =
      normalize_tournament_name "UFC 302") ∧
    (normalize_tournament_name (normalize_tournament_name "Galaxy Battle // Phase 4") =
      normalize_tournament_name "Galaxy Battle // Phase 4") ∧
    (normalize_tournament_name (normalize_tournament_name "StarLadder SS") =
      normalize_tournament_name "StarLadder SS") := by
  refine ⟨by decide, by decide, by decide, by decide, by decide⟩

/- ### Claim C8 -/

theorem digitChar_isDigit {n : Nat} (h : n < 10) : (Nat.digitChar n).isDigit := by
  interval_cases n <;> decide

theorem natDigitsAux_spec : ∀ fuel n, n < fuel →
    natDigitsAux fuel n ≠ [] ∧ ∀ c ∈ natDigitsAux fuel n, c.isDigit := by
  intro fuel
  induction fuel with
  | zero => intro n h; omega
  | succ fuel ih =>
    intro n h
    by_cases h10 : n < 10
    · refine ⟨by simp [natDigitsAux, h10], ?_⟩
      intro c hc
      simp only [natDigitsAux, h10, if_true, List.mem_singleton] at hc
      subst hc
      exact digitChar_isDigit h10
    · have hdiv : n / 10 < fuel := by
        have h1 : n / 10 < n := Nat.div_lt_self (by omega) (by omega)
        omega
      obtain ⟨hne, hall⟩ := ih (n / 10) hdiv
      refine ⟨by simp [natDigitsAux, h10], ?_⟩
      intro c hc
      simp only [natDigitsAux, h10, if_false, List.mem_append, List.mem_singleton] at hc
      rcases hc with hc | hc
      · exact hall c hc
      · subst hc
        exact digitChar_isDigit (Nat.mod_lt _ (by omega))

theorem natRepr_spec (n : Nat) : natRepr n ≠ "" ∧ ∀ c ∈ (natRepr n).data, c.isDigit := by
  obtain ⟨hne, hall⟩ := natDigitsAux_spec (n + 1) n (by omega)
  constructor
  · intro h
    exact hne (by simpa [natRepr] using congrArg String.data h)
  · intro c hc
    exact hall c (by simpa [natRepr] using hc)

theorem fmtEx : fmt_ev (some (3/5)) (some (37/20)) = ("11.00%", some (11/100)) := by
  have he : ((3 : ℚ)/5) * (37/20) - 1 = 11/100 := by norm_num
  have h2 : (((3 : ℚ)/5) * (37/20) - 1) * 100 = 11 := by norm_num
  have h3 : halfEvenZ ((11 : ℚ) * 100) = 1100 := by norm_num [halfEvenZ]
  have h4 : formatFixed2 (11 : ℚ) = "11.00" := by
    have hneg : ¬ ((11 : ℚ) < 0) := by norm_num
    have hn : natRepr ((1100 : ℤ).natAbs / 100) = "11" := by decide
    have hp : pad2 ((1100 : ℤ).natAbs % 100) = "00" := by decide
    simp only [formatFixed2, h3, hn, hp, hneg, if_false]
    decide
  calc fmt_ev (some ((3 : ℚ)/5)) (some ((37 : ℚ)/20))
      = (formatFixed2 ((((3 : ℚ)/5) * (37/20) - 1) * 100) ++ "%",
          some (((3 : ℚ)/5) * (37/20) - 1)) := rfl
    _ = (formatFixed2 (11 : ℚ) ++ "%", some ((11 : ℚ)/100)) := by rw [h2, he]
    _ = ("11.00%", some ((11 : ℚ)/100)) := by
        rw [h4]
        simp only [Prod.mk.injEq]
        exact ⟨by decide, trivial⟩

/-- Claim C8 (counterexample): for the positive EV 11% the rendered string
is `"11.00%"`, with no explicit leading `"+"` sign. -/
theorem C8_counterexample :
    (fmt_ev (some (3/5)) (some (37/20))).1 = "11.00%" ∧
    (fmt_ev (some (3/5)) (some (37/20))).1 ≠ "+11.00%" := by
  rw [fmtEx]
  exact ⟨rfl, by decide⟩

/-- The shape of every `:.2f` rendering: the value-keyed sign, a non-empty
run of digits, a period, and exactly two fractional digits. -/
theorem formatFixed2_spec (x : ℚ) :
    ∃ intPart d1 d2,
      formatFixed2 x =
        (if x < 0 then "-" else "") ++ intPart ++ "." ++ String.mk [d1, d2] ∧
      intPart ≠ "" ∧ (∀ c ∈ intPart.data, c.isDigit) ∧ d1.isDigit ∧ d2.isDigit :=
  ⟨natRepr ((halfEvenZ (x * 100)).natAbs / 100),
    Nat.digitChar ((halfEvenZ (x * 100)).natAbs % 100 / 10 % 10),
    Nat.digitChar ((halfEvenZ (x * 100)).natAbs % 100 % 10),
    rfl, (natRepr_spec _).1, (natRepr_spec _).2,
    digitChar_isDigit (by omega), digitChar_isDigit (by omega)⟩

theorem sign_iff (x : ℚ) :
    ((if x < 0 then "-" else "") = "-" ↔ x < 0) ∧
    ((if x < 0 then "-" else "") = "" ↔ ¬ x < 0) := by
  by_cases h : x < 0
  · rw [if_pos h]
    exact ⟨⟨fun _ => h, fun _ => rfl⟩, ⟨fun he => absurd he (by decide), fun hn => absurd h hn⟩⟩
  · rw [if_neg h]
    exact ⟨⟨fun he => absurd he (by decide), fun hx => absurd hx h⟩, ⟨fun _ => h, fun _ => rfl⟩⟩

/-- Claim C8 (amended): the EV for present inputs is rendered as a
percentage with exactly two fractional digits, prefixed by `"-"` exactly
when the EV is negative and unsigned otherwise — never an explicit `"+"`;
the odds display of the comparison and the win-rate percentage display are
likewise rendered with exactly two fractional digits under the same
value-keyed sign convention. -/
theorem C8_formatting (wr odds : ℚ) :
    (∃ sgn intPart d1 d2,
      fmt_ev (some wr) (some odds) =
        (sgn ++ intPart ++ "." ++ String.mk [d1, d2] ++ "%", some (wr * odds - 1)) ∧
      (sgn = "-" ↔ wr * odds - 1 < 0) ∧ (sgn = "" ↔ ¬ wr * odds - 1 < 0) ∧
      intPart ≠ "" ∧ (∀ c ∈ intPart.data, c.isDigit) ∧ d1.isDigit ∧ d2.isDigit) ∧
    (∃ sgn intPart d1 d2,
      fmt_odds odds = sgn ++ intPart ++ "." ++ String.mk [d1, d2] ∧
      (sgn = "-" ↔ odds < 0) ∧ (sgn = "" ↔ ¬ odds < 0) ∧
      intPart ≠ "" ∧ (∀ c ∈ intPart.data, c.isDigit) ∧ d1.isDigit ∧ d2.isDigit) ∧
    (∃ sgn intPart d1 d2,
      fmt_wr (some wr) = sgn ++ intPart ++ "." ++ String.mk [d1, d2] ++ "%" ∧
      (sgn = "-" ↔ wr < 0) ∧ (sgn = "" ↔ ¬ wr < 0) ∧
      intPart ≠ "" ∧ (∀ c ∈ intPart.data, c.isDigit) ∧ d1.isDigit ∧ d2.isDigit) := by
  refine ⟨?_, ?_, ?_⟩
  · obtain ⟨i, d1, d2, heq, hi, hd, h1, h2⟩ := formatFixed2_spec ((wr * odds - 1) * 100)
    have hs := sign_iff ((wr * odds - 1) * 100)
    have hlt : ((wr * odds - 1) * 100 < 0) ↔ (wr * odds - 1 < 0) :=
      ⟨fun h => by linarith, fun h => by linarith⟩
    refine ⟨if (wr * odds - 1) * 100 < 0 then "-" else "", i, d1, d2, ?_, ?_, ?_, hi, hd, h1, h2⟩
    · show (formatFixed2 ((wr * odds - 1) * 100) ++ "%", some (wr * odds - 1)) = _
      rw [heq]
    · rw [hs.1, hlt]
    · rw [hs.2, not_iff_not]
      exact hlt
  · obtain ⟨i, d1, d2, heq, hi, hd, h1, h2⟩ := formatFixed2_spec odds
    exact ⟨if odds < 0 then "-" else "", i, d1, d2, heq, (sign_iff odds).1, (sign_iff odds).2,
      hi, hd, h1, h2⟩
  · obtain ⟨i, d1, d2, heq, hi, hd, h1, h2⟩ := formatFixed2_spec (wr * 100)
    have hs := sign_iff (wr * 100)
    have hlt : (wr * 100 < 0) ↔ (wr < 0) := ⟨fun h => by linarith, fun h => by linarith⟩
    refine ⟨if wr * 100 < 0 then "-" else "", i, d1, d2, ?_, ?_, ?_, hi, hd, h1, h2⟩
    · show formatFixed2 (wr * 100) ++ "%" = _
      rw [heq]
    · rw [hs.1, hlt]
    · rw [hs.2, not_iff_not]
      exact hlt

/- ### Claim C9 -/

/-- Two-level lookup `stats[sport][tournament]`. -/
def dlookup2 {κ1 κ2 β : Type} [DecidableEq κ1] [DecidableEq κ2]
    (m : List (κ1 × List (κ2 × β))) (k1 : κ1) (k2 : κ2) : Option β :=
  (dlookup m k1).bind fun i => dlookup i k2

instance instIsTotalDescBy {γ : Type} (g : γ → Nat) : IsTotal γ (fun a b => g b ≤ g a) :=
  ⟨fun a b => Nat.le_total (g b) (g a)⟩

instance instIsTransDescBy {γ : Type} (g : γ → Nat) : IsTrans γ (fun a b => g b ≤ g a) :=
  ⟨fun _ _ _ h1 h2 => Nat.le_trans h2 h1⟩

/-- Claim C9: in the statistics view, the sport alias is applied before
grouping (the bucket key is `canonSport`); records with empty sport, empty
tournament, or empty normalized tournament are excluded (the step is the
identity on them); an included record increments its bucket's total by 1
and its wins by 1 exactly when the lower-cased result is `"win"`, leaving
every other bucket unchanged; and the displayed sports and per-sport
tournaments are ordered descending by total bet count. -/
theorem C9_statistics_view (data : List MatchBetTuple) :
    (∀ stats b, (b.sport = "" ∨ b.tournament = "" ∨
      normalize_tournament_name b.tournament = "") → statStep stats b = stats) ∧
    (∀ stats b, b.sport ≠ "" → b.tournament ≠ "" →
      normalize_tournament_name b.tournament ≠ "" →
      dlookup2 (statStep stats b) (canonSport b.sport)
          (normalize_tournament_name b.tournament) =
        some (((dlookup2 stats (canonSport b.sport)
            (normalize_tournament_name b.tournament)).getD (0, 0)).1 +
            (if isWinResult b.result then 1 else 0),
          ((dlookup2 stats (canonSport b.sport)
            (normalize_tournament_name b.tournament)).getD (0, 0)).2 + 1)) ∧
    (∀ stats b, b.sport ≠ "" → b.tournament ≠ "" →
      normalize_tournament_name b.tournament ≠ "" →
      ∀ s t, ¬(s = canonSport b.sport ∧ t = normalize_tournament_name b.tournament) →
        dlookup2 (statStep stats b) s t = dlookup2 stats s t) ∧
    List.Sorted (fun a b => sportTotalOf (buildTournamentStats data) b ≤
      sportTotalOf (buildTournamentStats data) a)
      (sortedSports (buildTournamentStats data)) ∧
    List.Perm (sortedSports (buildTournamentStats data))
      (dkeys (buildTournamentStats data)) ∧
    (∀ s inner, dlookup (buildTournamentStats data) s = some inner →
      List.Sorted (fun x y => y.2.2 ≤ x.2.2) (sortedTourneys inner) ∧
      List.Perm (sortedTourneys inner) inner) := by
  refine ⟨?_, ?_, ?_, ?_, ?_, ?_⟩
  · intro stats b h
    unfold statStep
    rcases h with h | h | h
    · rw [if_pos h]
    · by_cases h1 : b.sport = ""
      · rw [if_pos h1]
      · rw [if_neg h1, if_pos h]
    · by_cases h1 : b.sport = ""
      · rw [if_pos h1]
      · by_cases h2 : b.tournament = ""
        · rw [if_neg h1, if_pos h2]
        · rw [if_neg h1, if_neg h2, if_pos h]
  · intro stats b h1 h2 h3
    unfold statStep
    rw [if_neg h1, if_neg h2, if_neg h3]
    unfold dlookup2
    rw [dlookup_dadjust, if_pos rfl, dlookup_densure, if_pos rfl]
    cases hq : dlookup stats (canonSport b.sport) with
    | some inner =>
      simp only [hq, Option.getD_some, Option.map_some', Option.some_bind]
      rw [dlookup_dadjust, if_pos rfl, dlookup_densure, if_pos rfl]
      cases hw : dlookup inner (normalize_tournament_name b.tournament) with
      | some wt => simp [hw]
      | none => simp [hw]
    | none =>
      simp only [hq, Option.getD_none, Option.map_some', Option.some_bind,
        Option.none_bind]
      rw [dlookup_dadjust, if_pos rfl, dlookup_densure, if_pos rfl]
      simp [dlookup]
  · intro stats b h1 h2 h3 s t hst
    unfold statStep
    rw [if_neg h1, if_neg h2, if_neg h3]
    unfold dlookup2
    by_cases hs : s = canonSport b.sport
    · subst hs
      have ht : ¬ t = normalize_tournament_name b.tournament := fun hh => hst ⟨rfl, hh⟩
      rw [dlookup_dadjust, if_pos rfl, dlookup_densure, if_pos rfl]
      cases hq : dlookup stats (canonSport b.sport) with
      | some inner =>
        simp only [hq, Option.getD_some, Option.map_some', Option.some_bind]
        rw [dlookup_dadjust, if_neg ht, dlookup_densure, if_neg ht]
      | none =>
        simp only [hq, Option.getD_none, Option.map_some', Option.some_bind,
          Option.none_bind]
        rw [dlookup_dadjust, if_neg ht, dlookup_densure, if_neg ht]
        simp [dlookup]
    · rw [dlookup_dadjust, if_neg hs, dlookup_densure, if_neg hs]
  · exact List.sorted_insertionSort _ _
  · exact List.perm_insertionSort _ _
  · intro s inner _
    exact ⟨List.sorted_insertionSort _ _, List.perm_insertionSort _ _⟩

theorem C9_witness :
    dlookup2 (statStep [] bEx) (canonSport bEx.sport)
      (normalize_tournament_name bEx.tournament) = some (1, 1) := by
  have h := (C9_statistics_view []).2.1 [] bEx (by decide) (by decide) (by decide)
  simpa +decide [dlookup2, dlookup, bEx, isWinResult, lowerChars] using h
